import Mathlib

/-!
Verification development for the strands agent execution cycle, its
conversation managers, agent state container, tool dispatcher, event
emitter and the telemetry setup helpers.

The telemetry setup helpers are embedded from
`src/strands/telemetry/config.py`.  The execution-cycle components are
modelled from the design specification (their implementation modules are
exercised by `tests/strands/agent/test_agent.py` but are not part of the
sources at hand), with machine integers as `Nat`/`Int`, fallible code as
`Except`, and Python object identity as explicit address labels.
-/

namespace Strands

/-! ## Python value model for the AgentState container

Modelled from the spec: the `AgentState` key→value store (an arbitrary
JSON-serializable mapping whose reads and writes perform deep,
reference-breaking copies).  A Python value is a tree whose mutable dict
nodes carry an explicit identity address; two occurrences of the same
address denote the same runtime object, and a mutation event rewrites
every dict node carrying the mutated address. -/

mutual

inductive PyVal where
  | atom (s : String)
  | nonser (tag : Nat)
  | dict (addr : Nat) (fields : PyFields)

inductive PyFields where
  | nil
  | cons (k : String) (v : PyVal) (rest : PyFields)

end

mutual

/-- Addresses of all dict nodes occurring in a value. -/
def addrsOf : PyVal → List Nat
  | .atom _ => []
  | .nonser _ => []
  | .dict a fs => a :: addrsOfFields fs

/-- Addresses of all dict nodes occurring in a field list. -/
def addrsOfFields : PyFields → List Nat
  | .nil => []
  | .cons _ v rest => addrsOf v ++ addrsOfFields rest

end

mutual

/-- Modelled from the spec: `copy.deepcopy` — rebuild the value giving every
dict node a fresh address drawn from the allocation counter `n`. -/
def deepcopy : Nat → PyVal → PyVal × Nat
  | n, .atom s => (.atom s, n)
  | n, .nonser t => (.nonser t, n)
  | n, .dict _ fs =>
      let (fs', n') := deepcopyFields (n + 1) fs
      (.dict n fs', n')

/-- Deep copy of a field list, threading the allocation counter. -/
def deepcopyFields : Nat → PyFields → PyFields × Nat
  | n, .nil => (.nil, n)
  | n, .cons k v rest =>
      let (v', n') := deepcopy n v
      let (rest', n'') := deepcopyFields n' rest
      (.cons k v' rest', n'')

end

/-- Update (or insert) key `k` in a field list. -/
def setField (k : String) (v : PyVal) : PyFields → PyFields
  | .nil => .cons k v .nil
  | .cons k' v' rest =>
      if k' = k then .cons k' v rest else .cons k' v' (setField k v rest)

mutual

/-- A mutation event `d[k] := w` performed on the dict object whose address
is `a`: every dict node labelled `a`, wherever it occurs, gets field `k`
set to `w`. -/
def mutateVal (a : Nat) (k : String) (w : PyVal) : PyVal → PyVal
  | .atom s => .atom s
  | .nonser t => .nonser t
  | .dict a' fs =>
      let fs' := mutateFields a k w fs
      if a' = a then .dict a' (setField k w fs') else .dict a' fs'

/-- Mutation event applied inside a field list. -/
def mutateFields (a : Nat) (k : String) (w : PyVal) : PyFields → PyFields
  | .nil => .nil
  | .cons k' v rest => .cons k' (mutateVal a k w v) (mutateFields a k w rest)

end

mutual

/-- Modelled from the spec: the `json.dumps` serializability check — a value
serializes iff it contains no non-serializable leaf. -/
def serializableVal : PyVal → Bool
  | .atom _ => true
  | .nonser _ => false
  | .dict _ fs => serializableFields fs

/-- Serializability of every value of a field list. -/
def serializableFields : PyFields → Bool
  | .nil => true
  | .cons _ v rest => serializableVal v && serializableFields rest

end

/-- Modelled from the spec: the `AgentState` container — a key→value store
plus the global allocation counter (every live object's address is below
the counter). -/
structure AgentState where
  fields : PyFields
  next : Nat

/-- Well-formedness: all stored dict addresses were allocated. -/
def AgentState.WF (st : AgentState) : Prop :=
  ∀ a ∈ addrsOfFields st.fields, a < st.next

/-- Modelled from the spec: `AgentState.set` — reject non-serializable
values with a descriptive error, otherwise store a deep copy of the value
(reference-breaking write). -/
def AgentState.set (st : AgentState) (k : String) (v : PyVal) :
    Except String AgentState :=
  if serializableVal v then
    let (v', n') := deepcopy st.next v
    .ok { fields := setField k v' st.fields, next := n' }
  else .error "Value is not JSON serializable"

/-- Modelled from the spec: `AgentState.get` — return a deep copy of the
stored mapping as a fresh dict (reference-breaking read), together with the
advanced allocation counter. -/
def AgentState.get (st : AgentState) : PyVal × AgentState :=
  let (fs', n') := deepcopyFields (st.next + 1) st.fields
  (.dict st.next fs', { st with next := n' })

/-- Modelled from the spec: agent construction configuration. -/
structure AgentCfg where
  maxParallelTools : Int
  state : AgentState

/-- Construction-time error for a non-positive concurrency ceiling. -/
def MAX_PARALLEL_ERR : String := "max_parallel_tools must be greater than 0"

/-- Construction-time error for non-serializable initial state. -/
def NOT_SERIALIZABLE_ERR : String := "Value is not JSON serializable"

/-- Modelled from the spec: agent construction — a non-positive concurrency
ceiling or a non-JSON-serializable initial state is rejected immediately
with a descriptive error; otherwise the initial state is deep-copied into
the container.  `alloc` is the current global allocation counter. -/
def mkAgent (maxParallelTools : Int) (state : PyFields) (alloc : Nat) :
    Except String AgentCfg :=
  if maxParallelTools < 1 then .error MAX_PARALLEL_ERR
  else if serializableFields state then
    let (fs, n') := deepcopyFields alloc state
    .ok { maxParallelTools := maxParallelTools, state := { fields := fs, next := n' } }
  else .error NOT_SERIALIZABLE_ERR

/-! ## Message model

Modelled from the spec: messages are `{role, content}` with the content an
ordered sequence of tagged blocks; tool inputs and tool payloads are plain
JSON values. -/

mutual

inductive JsonVal where
  | str (s : String)
  | obj (fields : JsonFields)

inductive JsonFields where
  | nil
  | cons (k : String) (v : JsonVal) (rest : JsonFields)

end

mutual

/-- JSON serialization in the style of Python's `json.dumps`. -/
def serializeJson : JsonVal → String
  | .str s => "\"" ++ s ++ "\""
  | .obj fs => "\x7b" ++ serializeJsonFields fs ++ "\x7d"

/-- Serialization of the comma-separated members of a JSON object. -/
def serializeJsonFields : JsonFields → String
  | .nil => ""
  | .cons k v .nil => "\"" ++ k ++ "\": " ++ serializeJson v
  | .cons k v (.cons k' v' rest) =>
      "\"" ++ k ++ "\": " ++ serializeJson v ++ ", "
        ++ serializeJsonFields (.cons k' v' rest)

end

inductive Role where
  | user
  | assistant
  deriving DecidableEq

inductive Status where
  | success
  | error
  deriving DecidableEq

/-- A content item inside a tool result (the spec's ordered sequence of
text blocks carried by a `ToolResult`). -/
inductive ResultContent where
  | text (s : String)
  deriving DecidableEq

structure ToolUseData where
  toolUseId : String
  name : String
  input : JsonVal

structure ToolResultData where
  toolUseId : String
  status : Status
  content : List ResultContent
  deriving DecidableEq

inductive ContentBlock where
  | text (s : String)
  | toolUse (tu : ToolUseData)
  | toolResult (tr : ToolResultData)
  | reasoning (text signature : String)

structure Message where
  role : Role
  content : List ContentBlock

inductive StopReason where
  | endTurn
  | toolUse
  | maxTokens
  deriving DecidableEq

/-- The `ToolUse` blocks of a message, in content order. -/
def toolUses (m : Message) : List ToolUseData :=
  m.content.filterMap fun b =>
    match b with
    | .toolUse tu => some tu
    | _ => none

/-- Whether a message carries any `ToolResult` block. -/
def hasToolResultBlock (m : Message) : Bool :=
  m.content.any fun b =>
    match b with
    | .toolResult _ => true
    | _ => false

/-! ## Streamed-delta message assembly

Modelled from the spec: the Streaming state folds provider delta events
into an in-progress message builder — text deltas concatenate, tool-use
deltas accumulate a JSON-input string parsed once the block closes (a
parse failure yields an empty input object, not a hard failure), reasoning
deltas accumulate text and signature separately, and `messageStop` carries
the stop reason. -/

inductive StreamEvent where
  | blockStartToolUse (toolUseId name : String)
  | blockStartOther
  | deltaText (s : String)
  | deltaToolUseInput (s : String)
  | deltaReasoningText (s : String)
  | deltaReasoningSignature (s : String)
  | blockStop
  | messageStop (r : StopReason)

/-- In-progress message builder state. -/
structure StreamAcc where
  blocks : List ContentBlock
  curTool : Option (String × String × String)
  curText : String
  curReasonText : String
  curReasonSig : String

/-- Empty builder state. -/
def initAcc : StreamAcc := ⟨[], none, "", "", ""⟩

/-- Close the current content block: a tool-use block parses its
accumulated JSON input (empty object on failure), a reasoning block takes
priority over text, and otherwise the accumulated text becomes a text
block. -/
def closeBlock (parse : String → Option JsonVal) (acc : StreamAcc) : StreamAcc :=
  match acc.curTool with
  | some (i, n, j) =>
      let input := (parse j).getD (JsonVal.obj .nil)
      ⟨acc.blocks ++ [.toolUse ⟨i, n, input⟩], none, "", "", ""⟩
  | none =>
      if acc.curReasonText ≠ "" ∨ acc.curReasonSig ≠ "" then
        ⟨acc.blocks ++ [.reasoning acc.curReasonText acc.curReasonSig], none, "", "", ""⟩
      else
        ⟨acc.blocks ++ [.text acc.curText], none, "", "", ""⟩

/-- Fold one provider delta event into the builder state. -/
def stepEvent (parse : String → Option JsonVal) (acc : StreamAcc) :
    StreamEvent → StreamAcc
  | .blockStartToolUse i n => { acc with curTool := some (i, n, "") }
  | .blockStartOther => acc
  | .deltaText s => { acc with curText := acc.curText ++ s }
  | .deltaToolUseInput s =>
      { acc with
        curTool :=
          match acc.curTool with
          | some (i, n, j) => some (i, n, j ++ s)
          | none => none }
  | .deltaReasoningText s => { acc with curReasonText := acc.curReasonText ++ s }
  | .deltaReasoningSignature s => { acc with curReasonSig := acc.curReasonSig ++ s }
  | .blockStop => closeBlock parse acc
  | .messageStop _ => acc

/-- Fold a whole event stream into the builder state. -/
def runStream (parse : String → Option JsonVal) (evs : List StreamEvent)
    (acc : StreamAcc) : StreamAcc :=
  evs.foldl (stepEvent parse) acc

/-- The stop reason carried by the last `messageStop` event of the stream,
defaulting to `end_turn`. -/
def stopReasonOf (evs : List StreamEvent) : StopReason :=
  (evs.foldl
      (fun acc e =>
        match e with
        | .messageStop r => some r
        | _ => acc)
      none).getD .endTurn

/-- Assemble a streamed provider response into a stop reason and the
finished assistant message. -/
def assembleMessage (parse : String → Option JsonVal) (evs : List StreamEvent) :
    StopReason × Message :=
  (stopReasonOf evs, ⟨.assistant, (runStream parse evs initAcc).blocks⟩)

/-! ## Conversation managers

Modelled from the spec: the Null variant is a no-op whose `reduceContext`
re-raises the cause immediately; the sliding-window variant trims to a
window (never leaving a dangling tool result at the cut) and reduces
context by first truncating the largest oversized tool results (when
enabled) and otherwise dropping the oldest message pair, re-raising the
cause once the conversation is minimal. -/

inductive ConvManager where
  | null
  | slidingWindow (windowSize : Nat) (shouldTruncateResults : Bool)

/-- The fixed replacement text installed when a tool result is truncated. -/
def TOOL_RESULT_TOO_LARGE : String := "The tool result was too large!"

/-- The truncated form of a tool result: fixed error text, error status. -/
def truncatedResult (tr : ToolResultData) : ToolResultData :=
  ⟨tr.toolUseId, .error, [.text TOOL_RESULT_TOO_LARGE]⟩

/-- Whether a tool result has already been truncated. -/
def isTruncatedResult (tr : ToolResultData) : Bool :=
  tr.status = Status.error ∧ tr.content = [.text TOOL_RESULT_TOO_LARGE]

/-- Size of a tool result: total length of its text content. -/
def resultSize (tr : ToolResultData) : Nat :=
  (tr.content.map fun c => match c with | .text s => s.length).sum

/-- The not-yet-truncated tool results of a block list, in order. -/
def blockResults : List ContentBlock → List ToolResultData
  | [] => []
  | .toolResult tr :: rest =>
      if isTruncatedResult tr then blockResults rest
      else tr :: blockResults rest
  | _ :: rest => blockResults rest

/-- The not-yet-truncated tool results of a conversation, in order. -/
def truncatableResults : List Message → List ToolResultData
  | [] => []
  | m :: rest => blockResults m.content ++ truncatableResults rest

/-- The largest size among the truncatable tool results. -/
def maxResultSize (conv : List Message) : Nat :=
  ((truncatableResults conv).map resultSize).foldr max 0

/-- Truncate one block: a not-yet-truncated tool result whose size attains
the maximum `m` is replaced by the fixed error form. -/
def truncateBlock (m : Nat) : ContentBlock → ContentBlock
  | .toolResult tr =>
      if isTruncatedResult tr = false ∧ resultSize tr = m then
        .toolResult (truncatedResult tr)
      else .toolResult tr
  | b => b

/-- Replace the largest tool-result content block(s) of the conversation
with the fixed "tool result too large" error form. -/
def truncateLargest (conv : List Message) : List Message :=
  conv.map fun msg => ⟨msg.role, msg.content.map (truncateBlock (maxResultSize conv))⟩

/-- Drop leading messages that would leave a dangling tool result with no
preceding tool use. -/
def dropDangling : List Message → List Message
  | [] => []
  | m :: rest => if hasToolResultBlock m then dropDangling rest else m :: rest

/-- Modelled from the spec: `applyManagement` — the Null variant is a
no-op; the sliding-window variant trims the conversation to the window
from the tail without leaving a dangling tool result. -/
def applyManagement : ConvManager → List Message → List Message
  | .null, conv => conv
  | .slidingWindow w _, conv =>
      if conv.length ≤ w then conv
      else dropDangling (conv.drop (conv.length - w))

/-- Modelled from the spec: `reduceContext` — the Null variant re-raises
the cause immediately; the sliding-window variant truncates the largest
tool results when enabled and any remain, otherwise drops the oldest
message pair, and re-raises the cause when the conversation can shrink no
further. -/
def reduceContext : ConvManager → List Message → String → Except String (List Message)
  | .null, _conv, cause => .error cause
  | .slidingWindow _w shouldTruncateResults, conv, cause =>
      if shouldTruncateResults = true ∧ truncatableResults conv ≠ [] then
        .ok (truncateLargest conv)
      else if 2 < conv.length then .ok (conv.drop 2)
      else .error cause

/-! ## Tool dispatcher

Modelled from the spec: the dispatcher executes the requested tool uses in
input order; a missing tool or a tool's own exception is converted into an
error-status result rather than failing the batch. -/

/-- A registry lookup: tool name to tool capability, where a capability
takes the JSON input to either result content or a raised exception. -/
def ToolRegistry : Type :=
  String → Option (JsonVal → Except String (List ResultContent))

/-- Execute one requested tool use: missing tools and tool exceptions
become error-status results. -/
def dispatchTool (tools : ToolRegistry) (tu : ToolUseData) : ToolResultData :=
  match tools tu.name with
  | none => ⟨tu.toolUseId, .error, [.text ("Unknown tool: " ++ tu.name)]⟩
  | some f =>
      match f tu.input with
      | .ok content => ⟨tu.toolUseId, .success, content⟩
      | .error msg => ⟨tu.toolUseId, .error, [.text msg]⟩

/-- Execute a batch of tool uses; result order matches input order. -/
def dispatchTools (tools : ToolRegistry) (tus : List ToolUseData) :
    List ToolResultData :=
  tus.map (dispatchTool tools)

/-- The audit-trail user message synthesized by a recorded direct tool
call: the optional caller-supplied override text followed by the
serialized input. -/
def directToolCallMessage (toolName : String) (input : JsonVal)
    (userMessageOverride : Option String) : Message :=
  ⟨.user,
    (match userMessageOverride with
     | some t => [ContentBlock.text (t ++ "\n")]
     | none => [])
      ++ [ContentBlock.text
            ("agent.tool." ++ toolName ++ " direct tool call.\nInput parameters: "
              ++ serializeJson input ++ "\n")]⟩

/-- Modelled from the spec: direct (cycle-bypassing) tool invocation — the
tool runs through the same dispatch path, and, unless recording is
suppressed by the per-call override or by the instance flag, exactly one
user-role audit message is appended to the conversation.  `rand` is the
injected value of the process-wide id source. -/
def directToolCall (tools : ToolRegistry) (conv : List Message)
    (recordDirectToolCall : Bool) (recordOverride : Option Bool)
    (toolName : String) (input : JsonVal) (userMessageOverride : Option String)
    (rand : Nat) : ToolResultData × List Message :=
  let tu : ToolUseData :=
    ⟨"tooluse_" ++ toolName ++ "_" ++ toString rand, toolName, input⟩
  let result := dispatchTool tools tu
  if recordOverride.getD recordDirectToolCall then
    (result, conv ++ [directToolCallMessage toolName input userMessageOverride])
  else (result, conv)

/-! ## Execution cycle

Modelled from the spec: the state machine `Init → Invoking → Streaming →
(ToolDispatch → Invoking)* → Done`, with the overflow-recovery edge that
asks the conversation manager to reduce history and retries the same
Invoking step up to a small fixed attempt bound, re-raising the original
overflow cause when the bound is exhausted or the manager cannot shrink
further.  The provider is the external collaborator
`invoke(messages, toolSpecs, systemPrompt)`, here a function of the
invocation index and the conversation; its capacity-overflow error is
distinguishable from other failures. -/

/-- A provider failure: capacity overflow is distinguishable from all
other errors. -/
inductive ProviderErr where
  | overflow (cause : String)
  | other (msg : String)

/-- The provider collaborator: invocation index and conversation to either
a streamed response or a failure. -/
def Provider : Type :=
  Nat → List Message → Except ProviderErr (List StreamEvent)

/-- A loop-level failure: the un-wrapped original overflow cause, or the
single wrapper type carrying an unexpected mid-cycle fault. -/
inductive LoopErr where
  | contextWindowOverflow (cause : String)
  | eventLoopException (msg : String)
  deriving DecidableEq

/-- Events placed on the event emitter channel. -/
inductive Event where
  | initEventLoop
  | raw (e : StreamEvent)
  | message (m : Message)

/-- Observable side effects of one top-level invocation: manager call
counts, the conversation passed to each provider invocation, and the
emitted event stream. -/
structure Stats where
  applyCalls : Nat
  reduceCalls : Nat
  providerCalls : List (List Message)
  events : List Event

/-- The empty side-effect record. -/
def stats0 : Stats := ⟨0, 0, [], []⟩

/-- The fixed overflow-retry attempt bound (a small design constant). -/
def MAX_ATTEMPTS : Nat := 6

/-- Modelled from the spec: the Invoking step with overflow recovery — on
a capacity overflow, call `reduceContext` and retry, up to the fixed
attempt bound; exhausting the bound, or a manager that cannot shrink
further, re-raises the original overflow cause (never a wrapper).  `orig`
carries the first overflow cause seen.  Any other provider failure is
wrapped into the loop-level error type. -/
def invokeRetry (provider : Provider) (mgr : ConvManager) :
    Nat → List Message → Nat → Option String → Stats →
      Except LoopErr (List StreamEvent × List Message × Nat) × Stats
  | 0, _conv, _idx, orig, st =>
      (.error (.contextWindowOverflow (orig.getD "")), st)
  | n + 1, conv, idx, orig, st =>
      let st := { st with providerCalls := st.providerCalls ++ [conv] }
      match provider idx conv with
      | .ok evs => (.ok (evs, conv, idx + 1), st)
      | .error (.other msg) => (.error (.eventLoopException msg), st)
      | .error (.overflow cause) =>
          let origc := orig.getD cause
          match n with
          | 0 => (.error (.contextWindowOverflow origc), st)
          | m + 1 =>
              let st := { st with reduceCalls := st.reduceCalls + 1 }
              match reduceContext mgr conv cause with
              | .error c => (.error (.contextWindowOverflow c), st)
              | .ok conv' =>
                  invokeRetry provider mgr (m + 1) conv' (idx + 1) (some origc) st

/-- Modelled from the spec: the execution cycle — invoke the provider
(with overflow recovery), re-emit every delta verbatim, assemble the
streamed message, append it to the conversation, and either dispatch the
requested tools (wrapping their ordered results into one new user message)
and loop back to Invoking, or finish with the stop reason and the final
assistant message.  `fuel` is the maximum tool-use recursion depth. -/
def runCycle (provider : Provider) (mgr : ConvManager)
    (parse : String → Option JsonVal) (tools : ToolRegistry) :
    Nat → List Message → Nat → Stats →
      Except LoopErr (StopReason × Message × List Message) × Stats
  | 0, _conv, _idx, st =>
      (.error (.eventLoopException "Max tool use recursion depth reached"), st)
  | fuel + 1, conv, idx, st =>
      match invokeRetry provider mgr MAX_ATTEMPTS conv idx none st with
      | (.error e, st) => (.error e, st)
      | (.ok (evs, conv, idx), st) =>
          let st := { st with events := st.events ++ evs.map Event.raw }
          let (stop, msg) := assembleMessage parse evs
          let st := { st with events := st.events ++ [Event.message msg] }
          let conv := conv ++ [msg]
          if stop = StopReason.toolUse ∧ (toolUses msg).isEmpty = false then
            let results := dispatchTools tools (toolUses msg)
            let resMsg : Message := ⟨.user, results.map ContentBlock.toolResult⟩
            runCycle provider mgr parse tools fuel (conv ++ [resMsg]) idx st
          else (.ok (stop, msg, conv), st)

/-- Modelled from the spec: one top-level invocation through the agent
facade — append the prompt as a user message, apply the conversation
manager's steady-state policy once, emit the `init_event_loop` marker
before the first provider call, and run the execution cycle. -/
def agentCall (provider : Provider) (mgr : ConvManager)
    (parse : String → Option JsonVal) (tools : ToolRegistry)
    (maxRounds : Nat) (conv : List Message) (prompt : String) :
    Except LoopErr (StopReason × Message × List Message) × Stats :=
  let conv := conv ++ [⟨.user, [.text prompt]⟩]
  let conv := applyManagement mgr conv
  let st : Stats := { stats0 with applyCalls := stats0.applyCalls + 1 }
  let st := { st with events := st.events ++ [Event.initEventLoop] }
  runCycle provider mgr parse tools maxRounds conv 0 st

/-- One item pulled from the asynchronous stream: an event, or the raised
terminal failure. -/
inductive PullItem where
  | item (e : Event)
  | raise (err : LoopErr)

/-- Modelled from the spec: the asynchronous pull interface — drain the
single internal event channel in order; if the underlying cycle failed,
the failure is raised to the consumer on the pull following the events
produced before it. -/
def streamAsync (provider : Provider) (mgr : ConvManager)
    (parse : String → Option JsonVal) (tools : ToolRegistry)
    (maxRounds : Nat) (conv : List Message) (prompt : String) : List PullItem :=
  match agentCall provider mgr parse tools maxRounds conv prompt with
  | (.ok _, st) => st.events.map PullItem.item
  | (.error err, st) => st.events.map PullItem.item ++ [.raise err]

/-! ## Telemetry setup (`src/strands/telemetry/config.py`)

Shallow embedding of `StrandsTelemetry.setup_console_exporter` and
`StrandsTelemetry.setup_otlp_exporter`.  The OpenTelemetry collaborators
(constructing an exporter or processor, attaching a span processor, and
the OTLP module import) are injected as fallible actions; a Python
statement that may raise is an `Except` value, and the instance identity
of `self` is an explicit id. -/

/-- The telemetry instance: its identity, the attached span processors and
the log records written so far. -/
structure Telemetry where
  id : Nat
  processors : List String
  logged : List String

/-- `setup_console_exporter`: the whole body runs inside `try`; a failure
of constructing or attaching the simple console processor is logged, and
`self` is returned either way.  Attaching a processor mutates the
provider's processor list in place. -/
def setup_console_exporter (mkConsoleProcessor : Except String String)
    (addSpanProcessor : String → List String → Except String (List String))
    (t : Telemetry) : Except String Telemetry :=
  match mkConsoleProcessor >>= fun p => addSpanProcessor p t.processors with
  | .ok ps => .ok { t with processors := ps }
  | .error e =>
      .ok { t with logged := t.logged ++ ["Failed to configure console exporter: " ++ e] }

/-- `setup_otlp_exporter`: the OTLP module import happens before the
`try` block, so an import failure propagates; constructing the exporter
and batch processor and attaching it run inside `try`, with failures
logged, and `self` is returned from every non-import path. -/
def setup_otlp_exporter (importOtlpModule : Except String Unit)
    (mkOtlpExporter : Except String String)
    (mkBatchProcessor : String → Except String String)
    (addSpanProcessor : String → List String → Except String (List String))
    (t : Telemetry) : Except String Telemetry :=
  match importOtlpModule with
  | .error e => .error e
  | .ok _ =>
      match mkOtlpExporter >>= fun ex => mkBatchProcessor ex >>= fun p =>
          addSpanProcessor p t.processors with
      | .ok ps => .ok { t with processors := ps }
      | .error e =>
          .ok { t with logged := t.logged ++ ["Failed to configure OTLP exporter: " ++ e] }

/-! ## Lemmas about the overflow-retry loop and the cycle -/

/-- When `reduceContext` raises, it re-raises exactly the cause it was
given. -/
theorem reduceContext_error_eq (mgr : ConvManager) (conv : List Message)
    (cause c : String) (h : reduceContext mgr conv cause = .error c) :
    c = cause := by
  cases mgr with
  | null =>
      simp only [reduceContext] at h
      injection h with h'
      exact h'.symm
  | slidingWindow w tr =>
      simp only [reduceContext] at h
      split at h
      · exact absurd h (by simp)
      · split at h
        · exact absurd h (by simp)
        · injection h with h'
          exact h'.symm

/-- The retry loop never touches the apply-management counter. -/
theorem invokeRetry_applyCalls (p : Provider) (mgr : ConvManager) :
    ∀ (n : Nat) (conv : List Message) (idx : Nat) (orig : Option String)
      (st : Stats),
      ((invokeRetry p mgr n conv idx orig st).2).applyCalls = st.applyCalls := by
  intro n
  induction n with
  | zero => intro conv idx orig st; rfl
  | succ n ih =>
      intro conv idx orig st
      rw [invokeRetry]
      cases hp : p idx conv with
      | ok evs => simp
      | error e =>
          cases e with
          | other msg => simp
          | overflow cause =>
              cases n with
              | zero => simp
              | succ m =>
                  simp only []
                  cases hr : reduceContext mgr conv cause with
                  | error c => simp [hr]
                  | ok conv' => simpa [hr] using ih conv' (idx + 1) _ _

/-- The retry loop never emits events. -/
theorem invokeRetry_events (p : Provider) (mgr : ConvManager) :
    ∀ (n : Nat) (conv : List Message) (idx : Nat) (orig : Option String)
      (st : Stats),
      ((invokeRetry p mgr n conv idx orig st).2).events = st.events := by
  intro n
  induction n with
  | zero => intro conv idx orig st; rfl
  | succ n ih =>
      intro conv idx orig st
      rw [invokeRetry]
      cases hp : p idx conv with
      | ok evs => simp
      | error e =>
          cases e with
          | other msg => simp
          | overflow cause =>
              cases n with
              | zero => simp
              | succ m =>
                  simp only []
                  cases hr : reduceContext mgr conv cause with
                  | error c => simp [hr]
                  | ok conv' => simpa [hr] using ih conv' (idx + 1) _ _

/-- The cycle never touches the apply-management counter. -/
theorem runCycle_applyCalls (p : Provider) (mgr : ConvManager)
    (parse : String → Option JsonVal) (tools : ToolRegistry) :
    ∀ (fuel : Nat) (conv : List Message) (idx : Nat) (st : Stats),
      ((runCycle p mgr parse tools fuel conv idx st).2).applyCalls = st.applyCalls := by
  intro fuel
  induction fuel with
  | zero => intro conv idx st; rfl
  | succ fuel ih =>
      intro conv idx st
      rw [runCycle]
      cases hr : invokeRetry p mgr MAX_ATTEMPTS conv idx none st with
      | mk r st' =>
          have hst' : st'.applyCalls = st.applyCalls := by
            have := invokeRetry_applyCalls p mgr MAX_ATTEMPTS conv idx none st
            rw [hr] at this
            exact this
          cases r with
          | error e => simpa using hst'
          | ok out =>
              obtain ⟨evs, conv', idx'⟩ := out
              simp only []
              split
              · rw [ih]; simpa using hst'
              · simpa using hst'

/-- The cycle only appends to the emitted event stream. -/
theorem runCycle_events_extend (p : Provider) (mgr : ConvManager)
    (parse : String → Option JsonVal) (tools : ToolRegistry) :
    ∀ (fuel : Nat) (conv : List Message) (idx : Nat) (st : Stats),
      ∃ Δ, ((runCycle p mgr parse tools fuel conv idx st).2).events = st.events ++ Δ := by
  intro fuel
  induction fuel with
  | zero => intro conv idx st; exact ⟨[], by rw [runCycle]; simp⟩
  | succ fuel ih =>
      intro conv idx st
      rw [runCycle]
      cases hr : invokeRetry p mgr MAX_ATTEMPTS conv idx none st with
      | mk r st' =>
          have hst' : st'.events = st.events := by
            have := invokeRetry_events p mgr MAX_ATTEMPTS conv idx none st
            rw [hr] at this
            exact this
          cases r with
          | error e => exact ⟨[], by simpa using hst'⟩
          | ok out =>
              obtain ⟨evs, conv', idx'⟩ := out
              simp only []
              split
              · obtain ⟨Δ, hΔ⟩ := ih ((conv' ++ [(assembleMessage parse evs).2]) ++
                  [⟨Role.user,
                    (dispatchTools tools (toolUses (assembleMessage parse evs).2)).map
                      ContentBlock.toolResult⟩]) idx'
                  { st' with
                    events := (st'.events ++ evs.map Event.raw)
                      ++ [Event.message (assembleMessage parse evs).2] }
                refine ⟨evs.map Event.raw ++ [Event.message (assembleMessage parse evs).2] ++ Δ, ?_⟩
                rw [hΔ]
                simp [hst']
              · exact ⟨evs.map Event.raw ++ [Event.message (assembleMessage parse evs).2], by
                  simp [hst']⟩

/-- Against a provider that overflows on every invocation, the retry loop
fails with the original overflow cause and performs at most one provider
call per remaining attempt. -/
theorem invokeRetry_alwaysOverflow (mgr : ConvManager) (c : String) :
    ∀ (n : Nat) (conv : List Message) (idx : Nat) (orig : Option String)
      (st : Stats), orig = none ∨ orig = some c →
      (invokeRetry (fun _ _ => .error (.overflow c)) mgr (n + 1) conv idx orig st).1
          = .error (.contextWindowOverflow c)
        ∧ ((invokeRetry (fun _ _ => .error (.overflow c)) mgr (n + 1) conv idx orig
              st).2).providerCalls.length ≤ st.providerCalls.length + (n + 1) := by
  intro n
  induction n with
  | zero =>
      intro conv idx orig st horig
      rw [invokeRetry]
      rcases horig with h | h <;> subst h <;> simp
  | succ m ih =>
      intro conv idx orig st horig
      rw [invokeRetry]
      have hgetD : orig.getD c = c := by rcases horig with h | h <;> simp [h]
      simp only []
      cases hr : reduceContext mgr conv c with
      | error c' =>
          have : c' = c := reduceContext_error_eq mgr conv c c' hr
          subst this
          simp [hr, hgetD]
      | ok conv' =>
          have hrec := ih conv' (idx + 1) (some (orig.getD c))
            { st with
              providerCalls := st.providerCalls ++ [conv]
              reduceCalls := st.reduceCalls + 1 }
            (Or.inr (by rw [hgetD]))
          simp only [hr, hgetD]
          simp [hgetD] at hrec ⊢
          refine ⟨hrec.1, ?_⟩
          have := hrec.2
          simp at this
          omega

/-- Against a provider that overflows on every invocation, the cycle fails
with the original cause after at most `MAX_ATTEMPTS` provider calls. -/
theorem runCycle_alwaysOverflow (mgr : ConvManager)
    (parse : String → Option JsonVal) (tools : ToolRegistry) (c : String) :
    ∀ (f : Nat) (conv : List Message) (idx : Nat) (st : Stats),
      (runCycle (fun _ _ => .error (.overflow c)) mgr parse tools (f + 1) conv idx
            st).1 = .error (.contextWindowOverflow c)
        ∧ ((runCycle (fun _ _ => .error (.overflow c)) mgr parse tools (f + 1) conv
              idx st).2).providerCalls.length
            ≤ st.providerCalls.length + MAX_ATTEMPTS := by
  intro f conv idx st
  rw [runCycle]
  have h := invokeRetry_alwaysOverflow mgr c 5 conv idx none st (Or.inl rfl)
  rw [show (5 + 1 : Nat) = MAX_ATTEMPTS from rfl] at h
  cases hr : invokeRetry (fun _ _ => .error (.overflow c)) mgr MAX_ATTEMPTS conv idx
      none st with
  | mk r st' =>
      rw [hr] at h
      obtain ⟨h1, h2⟩ := h
      simp only [] at h1 h2
      cases r with
      | error e =>
          injection h1 with h1
          subst h1
          exact ⟨rfl, h2⟩
      | ok out => exact absurd h1 (by simp)

/-- C1: against a provider that raises a capacity overflow on every
invocation attempt, a top-level invocation — over any conversation
(arbitrary size included) and any conversation manager, the Null variant
and the sliding-window variant alike — terminates within the fixed retry
bound (at most `MAX_ATTEMPTS` provider calls) and re-raises the original
capacity-overflow cause itself, not a wrapper and not a different
error. -/
theorem overflow_exhaustion_reraises_original_cause :
    ∀ (mgr : ConvManager) (conv : List Message) (prompt : String) (c : String)
      (parse : String → Option JsonVal) (tools : ToolRegistry) (maxRounds : Nat),
      (agentCall (fun _ _ => .error (.overflow c)) mgr parse tools (maxRounds + 1)
            conv prompt).1 = .error (.contextWindowOverflow c)
        ∧ ((agentCall (fun _ _ => .error (.overflow c)) mgr parse tools
              (maxRounds + 1) conv prompt).2).providerCalls.length ≤ MAX_ATTEMPTS := by
  intro mgr conv prompt c parse tools maxRounds
  simp only [agentCall]
  refine ⟨(runCycle_alwaysOverflow mgr parse tools c maxRounds _ 0 _).1, ?_⟩
  have h := (runCycle_alwaysOverflow mgr parse tools c maxRounds
    (applyManagement mgr (conv ++ [⟨Role.user, [ContentBlock.text prompt]⟩])) 0
    { stats0 with
      applyCalls := stats0.applyCalls + 1
      events := stats0.events ++ [Event.initEventLoop] }).2
  simpa [stats0] using h

/-- C6: the conversation manager's steady-state `applyManagement` runs
exactly once per top-level invocation, regardless of how many
overflow-triggered retries or tool rounds the invocation performs. -/
theorem apply_management_called_once :
    ∀ (p : Provider) (mgr : ConvManager) (parse : String → Option JsonVal)
      (tools : ToolRegistry) (maxRounds : Nat) (conv : List Message)
      (prompt : String),
      ((agentCall p mgr parse tools maxRounds conv prompt).2).applyCalls = 1 := by
  intro p mgr parse tools maxRounds conv prompt
  simp only [agentCall]
  rw [runCycle_applyCalls]
  rfl

/-- C7: when the underlying cycle fails, the asynchronous pull interface
still delivers every event produced before the failure, in order, and then
raises the failure itself on the next pull — the failure neither is
swallowed nor replaces the already-produced events (the `init_event_loop`
marker emitted before the first provider call is still the first item
delivered). -/
theorem stream_async_delivers_events_then_raises :
    ∀ (p : Provider) (mgr : ConvManager) (parse : String → Option JsonVal)
      (tools : ToolRegistry) (maxRounds : Nat) (conv : List Message)
      (prompt : String) (err : LoopErr),
      (agentCall p mgr parse tools maxRounds conv prompt).1 = .error err →
      streamAsync p mgr parse tools maxRounds conv prompt
          = ((agentCall p mgr parse tools maxRounds conv prompt).2).events.map
              PullItem.item ++ [PullItem.raise err]
        ∧ ((agentCall p mgr parse tools maxRounds conv prompt).2).events.head?
            = some Event.initEventLoop := by
  intro p mgr parse tools maxRounds conv prompt err h
  constructor
  · unfold streamAsync
    cases hA : agentCall p mgr parse tools maxRounds conv prompt with
    | mk r st =>
        rw [hA] at h
        simp only [] at h
        subst h
        simp
  · simp only [agentCall] at *
    obtain ⟨Δ, hΔ⟩ := runCycle_events_extend p mgr parse tools maxRounds
      (applyManagement mgr (conv ++ [⟨Role.user, [ContentBlock.text prompt]⟩])) 0
      { stats0 with
        applyCalls := stats0.applyCalls + 1
        events := stats0.events ++ [Event.initEventLoop] }
    rw [hΔ]
    simp [stats0]

/-- Witness for C7 at a concrete failing run: the overflow failure is
raised right after the `init_event_loop` event is delivered. -/
theorem stream_async_delivers_events_then_raises_witness :
    streamAsync (fun _ _ => .error (.overflow "too long")) .null (fun _ => none)
          (fun _ => none) 1 [] "hi"
        = ((agentCall (fun _ _ => .error (.overflow "too long")) .null
              (fun _ => none) (fun _ => none) 1 [] "hi").2).events.map
            PullItem.item ++ [PullItem.raise (.contextWindowOverflow "too long")]
      ∧ ((agentCall (fun _ _ => .error (.overflow "too long")) .null
            (fun _ => none) (fun _ => none) 1 [] "hi").2).events.head?
          = some Event.initEventLoop :=
  stream_async_delivers_events_then_raises (fun _ _ => .error (.overflow "too long"))
    .null (fun _ => none) (fun _ => none) 1 [] "hi"
    (.contextWindowOverflow "too long") rfl

/-- C10: `setup_console_exporter` always returns the very instance it was
called on and never propagates an exception, whatever the injected
collaborator behaviors do; `setup_otlp_exporter` returns the instance and
swallows (logs) every failure raised while constructing or attaching the
exporter's span processor, and only a failure of the OTLP module import
itself — which happens before the `try` block — can escape, in which case
exactly that import failure is re-raised. -/
theorem telemetry_setup_returns_self_and_swallows_errors :
    ∀ (mkConsoleProcessor : Except String String)
      (addC : String → List String → Except String (List String))
      (t : Telemetry) (imp₁ imp₂ : Except String Unit)
      (mkOtlpExporter : Except String String)
      (mkBatchProcessor : String → Except String String)
      (addB : String → List String → Except String (List String)),
      (∃ t', setup_console_exporter mkConsoleProcessor addC t = .ok t'
          ∧ t'.id = t.id)
        ∧ (imp₁ = .ok () →
            ∃ t', setup_otlp_exporter imp₁ mkOtlpExporter mkBatchProcessor addB t
                = .ok t' ∧ t'.id = t.id)
        ∧ (∀ e, imp₂ = .error e →
            setup_otlp_exporter imp₂ mkOtlpExporter mkBatchProcessor addB t
              = .error e) := by
  intro mkC addC t imp₁ imp₂ mkE mkB addB
  refine ⟨?_, ?_, ?_⟩
  · unfold setup_console_exporter
    cases h : mkC >>= fun p => addC p t.processors with
    | ok ps => exact ⟨_, rfl, rfl⟩
    | error e => exact ⟨_, rfl, rfl⟩
  · intro h
    subst h
    unfold setup_otlp_exporter
    cases h : mkE >>= fun ex => mkB ex >>= fun p => addB p t.processors with
    | ok ps => exact ⟨_, rfl, rfl⟩
    | error e => exact ⟨_, rfl, rfl⟩
  · intro e h
    subst h
    rfl

/-- Witness for C10 at concrete collaborator behaviors: a console setup
whose attach step raises is swallowed, an OTLP setup whose exporter
construction raises is swallowed, and an OTLP setup whose module import
raises propagates exactly that import error. -/
theorem telemetry_setup_returns_self_and_swallows_errors_witness :
    (∃ t', setup_console_exporter (.ok "console")
          (fun _ _ => .error "attach failed") ⟨7, [], []⟩ = .ok t' ∧ t'.id = 7)
      ∧ (∃ t', setup_otlp_exporter (.ok ()) (.error "endpoint missing")
            (fun p => .ok p) (fun p ps => .ok (ps ++ [p])) ⟨7, [], []⟩
              = .ok t' ∧ t'.id = 7)
      ∧ setup_otlp_exporter (.error "No module named otlp")
          (.error "endpoint missing") (fun p => .ok p)
          (fun p ps => .ok (ps ++ [p])) ⟨7, [], []⟩
          = .error "No module named otlp" := by
  have h := telemetry_setup_returns_self_and_swallows_errors (.ok "console")
    (fun _ _ => .error "attach failed") ⟨7, [], []⟩ (.ok ())
    (.error "No module named otlp") (.error "endpoint missing")
    (fun p => .ok p) (fun p ps => .ok (ps ++ [p]))
  exact ⟨h.1, h.2.1 rfl, h.2.2 "No module named otlp" rfl⟩

/-- C8: a direct (cycle-bypassing) tool invocation leaves the conversation
completely unchanged when recording is disabled — by the per-call override
or, absent one, by the instance flag — and otherwise appends exactly one
user-role message consisting of the caller-supplied override text (when
given) followed by the serialized tool input. -/
theorem direct_tool_call_recording :
    ∀ (tools : ToolRegistry) (conv : List Message) (recordDirectToolCall : Bool)
      (recordOverride : Option Bool) (toolName : String) (input : JsonVal)
      (userMessageOverride : Option String) (rand : Nat),
      (directToolCall tools conv recordDirectToolCall recordOverride toolName
            input userMessageOverride rand).2
          = (if recordOverride.getD recordDirectToolCall then
              conv
                ++ [⟨Role.user,
                    (match userMessageOverride with
                     | some t => [ContentBlock.text (t ++ "\n")]
                     | none => [])
                      ++ [ContentBlock.text
                            ("agent.tool." ++ toolName
                              ++ " direct tool call.\nInput parameters: "
                              ++ serializeJson input ++ "\n")]⟩]
            else conv)
        ∧ ((directToolCall tools conv recordDirectToolCall recordOverride toolName
              input userMessageOverride rand).2).length
            = (if recordOverride.getD recordDirectToolCall then conv.length + 1
              else conv.length) := by
  intro tools conv rec recO toolName input umo rand
  unfold directToolCall directToolCallMessage
  cases h : recO.getD rec <;> simp [h]

/-- C9: agent construction rejects every non-positive concurrency ceiling
with the descriptive error, and with a positive ceiling it succeeds
exactly when the initial state is JSON-serializable (deep-copying it into
the state container) — in particular a ceiling of exactly 1 with
serializable state succeeds — rejecting non-serializable initial state
with the descriptive serialization error, all before any cycle runs. -/
theorem construction_validates_config :
    ∀ (k j : Nat) (state : PyFields) (alloc : Nat),
      mkAgent (0 - (k : Int)) state alloc = .error MAX_PARALLEL_ERR
        ∧ mkAgent (1 + (j : Int)) state alloc
            = (if serializableFields state then
                .ok ⟨1 + (j : Int),
                  ⟨(deepcopyFields alloc state).1, (deepcopyFields alloc state).2⟩⟩
              else .error NOT_SERIALIZABLE_ERR) := by
  intro k j state alloc
  constructor
  · have hk : (0 - (k : Int)) < 1 := by omega
    simp only [mkAgent, if_pos hk]
  · have hj : ¬ (1 + (j : Int) < 1) := by omega
    simp only [mkAgent, if_neg hj]

/-! ## Lemmas about streamed-delta message assembly -/

/-- A builder state with extra already-finished blocks prepended. -/
def withBlocks (B : List ContentBlock) (acc : StreamAcc) : StreamAcc :=
  ⟨B ++ acc.blocks, acc.curTool, acc.curText, acc.curReasonText, acc.curReasonSig⟩

/-- Closing a block only appends to the finished blocks. -/
theorem closeBlock_withBlocks (parse : String → Option JsonVal)
    (B : List ContentBlock) (acc : StreamAcc) :
    closeBlock parse (withBlocks B acc) = withBlocks B (closeBlock parse acc) := by
  unfold closeBlock withBlocks
  cases acc.curTool with
  | some x => obtain ⟨i, n, j⟩ := x; simp
  | none =>
      by_cases h : ¬acc.curReasonText = "" ∨ ¬acc.curReasonSig = ""
      · simp [h]
      · simp [h]

/-- Folding one event only appends to the finished blocks. -/
theorem stepEvent_withBlocks (parse : String → Option JsonVal)
    (B : List ContentBlock) (acc : StreamAcc) (e : StreamEvent) :
    stepEvent parse (withBlocks B acc) e = withBlocks B (stepEvent parse acc e) := by
  cases e with
  | blockStop => exact closeBlock_withBlocks parse B acc
  | _ => rfl

/-- Folding a stream only appends to the finished blocks: assembly of the
remainder is independent of the blocks already produced. -/
theorem runStream_withBlocks (parse : String → Option JsonVal)
    (evs : List StreamEvent) :
    ∀ (B : List ContentBlock) (acc : StreamAcc),
      runStream parse evs (withBlocks B acc) = withBlocks B (runStream parse evs acc) := by
  induction evs with
  | nil => intro B acc; rfl
  | cons e evs ih =>
      intro B acc
      show runStream parse evs (stepEvent parse (withBlocks B acc) e)
        = withBlocks B (runStream parse evs (stepEvent parse acc e))
      rw [stepEvent_withBlocks, ih]

/-- C5: when the accumulated JSON-input string of a streamed tool-use
block fails to parse at block close — under any parser — message assembly
does not fail: the assembled assistant message carries that `ToolUse`
block with its id and name and an empty object as input, in its original
position between the blocks assembled before it and the blocks assembled
after it. -/
theorem tool_use_parse_failure_yields_empty_input :
    ∀ (parse : String → Option JsonVal) (evs₁ evs₂ : List StreamEvent)
      (i n s : String) (B : List ContentBlock),
      parse s = none →
      runStream parse evs₁ initAcc = withBlocks B initAcc →
      (assembleMessage parse
            (evs₁ ++ .blockStartToolUse i n :: .deltaToolUseInput s
              :: .blockStop :: evs₂)).2
          = ⟨Role.assistant,
              B ++ ContentBlock.toolUse ⟨i, n, JsonVal.obj .nil⟩
                :: (runStream parse evs₂ initAcc).blocks⟩ := by
  intro parse evs₁ evs₂ i n s B hparse hclean
  unfold assembleMessage
  simp only []
  have hsplit : runStream parse
      (evs₁ ++ .blockStartToolUse i n :: .deltaToolUseInput s :: .blockStop :: evs₂)
      initAcc
      = runStream parse evs₂
          (stepEvent parse
            (stepEvent parse
              (stepEvent parse (runStream parse evs₁ initAcc)
                (.blockStartToolUse i n))
              (.deltaToolUseInput s))
            .blockStop) := by
    unfold runStream
    rw [List.foldl_append]
    rfl
  rw [hsplit, hclean]
  have h3 : stepEvent parse
      (stepEvent parse
        (stepEvent parse (withBlocks B initAcc) (.blockStartToolUse i n))
        (.deltaToolUseInput s))
      .blockStop
      = withBlocks (B ++ [ContentBlock.toolUse ⟨i, n, JsonVal.obj .nil⟩]) initAcc := by
    show closeBlock parse ⟨B ++ [], some (i, n, "" ++ s), "", "", ""⟩
      = withBlocks (B ++ [ContentBlock.toolUse ⟨i, n, JsonVal.obj .nil⟩]) initAcc
    unfold closeBlock withBlocks initAcc
    simp [String.empty_append, hparse]
  rw [h3, runStream_withBlocks]
  simp [withBlocks]

/-- Witness for C5 at a concrete stream: a text block, then a tool-use
block whose input fails to parse, then a reasoning block — the tool use
appears in the middle with an empty input object. -/
theorem tool_use_parse_failure_yields_empty_input_witness :
    (fun (_ : String) => (none : Option JsonVal)) "\"value\"" = none
      ∧ (assembleMessage (fun _ => none)
            ([.deltaText "value", .blockStop]
              ++ .blockStartToolUse "123" "test" :: .deltaToolUseInput "\"value\""
                :: .blockStop
                :: [.deltaReasoningText "why", .blockStop])).2
          = ⟨Role.assistant,
              [ContentBlock.text "value"]
                ++ ContentBlock.toolUse ⟨"123", "test", JsonVal.obj .nil⟩
                  :: (runStream (fun _ => none)
                      [.deltaReasoningText "why", .blockStop] initAcc).blocks⟩ :=
  ⟨rfl,
    tool_use_parse_failure_yields_empty_input (fun _ => none)
      [.deltaText "value", .blockStop] [.deltaReasoningText "why", .blockStop]
      "123" "test" "\"value\"" [ContentBlock.text "value"] rfl (by
        show runStream (fun _ => none) [.deltaText "value", .blockStop] initAcc
          = withBlocks [ContentBlock.text "value"] initAcc
        unfold runStream initAcc withBlocks
        simp [stepEvent, closeBlock, String.empty_append])⟩

/-- A provider invocation that succeeds at once leaves the retry loop with
the streamed events, the unchanged conversation, and the advanced
invocation index, having recorded exactly this one provider call. -/
theorem invokeRetry_ok (p : Provider) (mgr : ConvManager) (n : Nat)
    (conv : List Message) (idx : Nat) (orig : Option String) (st : Stats)
    (evs : List StreamEvent) (h : p idx conv = .ok evs) :
    invokeRetry p mgr (n + 1) conv idx orig st
      = (.ok (evs, conv, idx + 1),
        { st with providerCalls := st.providerCalls ++ [conv] }) := by
  rw [invokeRetry, h]

/-- One successful unrolling of the cycle: the provider call is recorded,
its events re-emitted, the assembled message appended, and the cycle
either dispatches the requested tools into one user message and loops, or
finishes. -/
theorem runCycle_step_ok (provider : Provider) (mgr : ConvManager)
    (parse : String → Option JsonVal) (tools : ToolRegistry) (fuel : Nat)
    (conv : List Message) (idx : Nat) (st : Stats) (evs : List StreamEvent)
    (stop : StopReason) (msg : Message)
    (hp : provider idx conv = .ok evs)
    (ha : assembleMessage parse evs = (stop, msg)) :
    runCycle provider mgr parse tools (fuel + 1) conv idx st
      = if stop = StopReason.toolUse ∧ (toolUses msg).isEmpty = false then
          runCycle provider mgr parse tools fuel
            ((conv ++ [msg])
              ++ [⟨Role.user,
                  (dispatchTools tools (toolUses msg)).map ContentBlock.toolResult⟩])
            (idx + 1)
            { st with
              providerCalls := st.providerCalls ++ [conv]
              events := st.events ++ evs.map Event.raw ++ [Event.message msg] }
        else
          (.ok (stop, msg, conv ++ [msg]),
            { st with
              providerCalls := st.providerCalls ++ [conv]
              events := st.events ++ evs.map Event.raw ++ [Event.message msg] }) := by
  rw [runCycle, show MAX_ATTEMPTS = 5 + 1 from rfl,
    invokeRetry_ok provider mgr 5 conv idx none st evs hp]
  simp only [ha]

/-- C2: when the provider's first stream assembles to a tool-use stop with
one `ToolUse` block naming a registered tool, the cycle executes that
tool, wraps its output as a success-status `ToolResult` inside exactly one
new user-role message appended after the assistant message, reinvokes the
provider with precisely this extended history, and returns the assistant
message assembled from the second stream as the cycle's final result. -/
theorem tool_use_round_trip :
    ∀ (provider : Provider) (mgr : ConvManager) (parse : String → Option JsonVal)
      (tools : ToolRegistry) (conv : List Message) (evs₁ evs₂ : List StreamEvent)
      (msg₁ msg₂ : Message) (tu : ToolUseData)
      (f : JsonVal → Except String (List ResultContent))
      (cont : List ResultContent) (fuel : Nat),
      provider 0 conv = .ok evs₁ →
      assembleMessage parse evs₁ = (.toolUse, msg₁) →
      toolUses msg₁ = [tu] →
      tools tu.name = some f →
      f tu.input = .ok cont →
      provider 1 (conv ++ [msg₁,
          ⟨Role.user, [.toolResult ⟨tu.toolUseId, .success, cont⟩]⟩]) = .ok evs₂ →
      assembleMessage parse evs₂ = (.endTurn, msg₂) →
      (runCycle provider mgr parse tools (fuel + 2) conv 0 stats0).1
          = .ok (.endTurn, msg₂,
              conv ++ [msg₁,
                ⟨Role.user, [.toolResult ⟨tu.toolUseId, .success, cont⟩]⟩, msg₂])
        ∧ ((runCycle provider mgr parse tools (fuel + 2) conv 0 stats0).2).providerCalls
            = [conv,
              conv ++ [msg₁,
                ⟨Role.user, [.toolResult ⟨tu.toolUseId, .success, cont⟩]⟩]] := by
  intro provider mgr parse tools conv evs₁ evs₂ msg₁ msg₂ tu f cont fuel
  intro h0 h1 h2 h3 h4 h5 h6
  have hres : dispatchTools tools (toolUses msg₁)
      = [⟨tu.toolUseId, .success, cont⟩] := by
    rw [h2]
    simp [dispatchTools, dispatchTool, h3, h4]
  have hconv2 : ((conv ++ [msg₁])
      ++ [(⟨Role.user,
          (dispatchTools tools (toolUses msg₁)).map ContentBlock.toolResult⟩ : Message)])
      = conv ++ [msg₁, ⟨Role.user, [.toolResult ⟨tu.toolUseId, .success, cont⟩]⟩] := by
    rw [hres]
    simp
  rw [show fuel + 2 = (fuel + 1) + 1 from rfl,
    runCycle_step_ok provider mgr parse tools (fuel + 1) conv 0 stats0 evs₁
      .toolUse msg₁ h0 h1]
  rw [if_pos ⟨rfl, by rw [h2]; rfl⟩, hconv2,
    runCycle_step_ok provider mgr parse tools fuel _ (0 + 1) _ evs₂ .endTurn msg₂ h5 h6]
  rw [if_neg (by simp)]
  constructor
  · simp
  · simp [stats0]

/-- Witness for C2 at a concrete run: the first stream requests the
registered tool, the dispatcher's success result is folded back as one
user message, and the second stream's text message is the final result. -/
theorem tool_use_round_trip_witness :
    (runCycle
          (fun idx _ =>
            if idx = 0 then
              .ok [.blockStartToolUse "t1" "tool_decorated", .deltaToolUseInput "x",
                .blockStop, .messageStop .toolUse]
            else .ok [.deltaText "test text", .blockStop])
          .null (fun _ => none)
          (fun nm =>
            if nm = "tool_decorated" then
              some fun _ => .ok [.text "abcdEfghI123"]
            else none)
          2 [⟨Role.user, [.text "test message"]⟩] 0 stats0).1
        = .ok (.endTurn, ⟨Role.assistant, [.text "test text"]⟩,
            [⟨Role.user, [.text "test message"]⟩]
              ++ [⟨Role.assistant,
                    [.toolUse ⟨"t1", "tool_decorated", JsonVal.obj .nil⟩]⟩,
                  ⟨Role.user,
                    [.toolResult ⟨"t1", .success, [.text "abcdEfghI123"]⟩]⟩,
                  ⟨Role.assistant, [.text "test text"]⟩]) := by
  have h := tool_use_round_trip
    (fun idx _ =>
      if idx = 0 then
        .ok [.blockStartToolUse "t1" "tool_decorated", .deltaToolUseInput "x",
          .blockStop, .messageStop .toolUse]
      else .ok [.deltaText "test text", .blockStop])
    .null (fun _ => none)
    (fun nm =>
      if nm = "tool_decorated" then
        some fun _ => .ok [.text "abcdEfghI123"]
      else none)
    [⟨Role.user, [.text "test message"]⟩]
    [.blockStartToolUse "t1" "tool_decorated", .deltaToolUseInput "x", .blockStop,
      .messageStop .toolUse]
    [.deltaText "test text", .blockStop]
    ⟨Role.assistant, [.toolUse ⟨"t1", "tool_decorated", JsonVal.obj .nil⟩]⟩
    ⟨Role.assistant, [.text "test text"]⟩
    ⟨"t1", "tool_decorated", JsonVal.obj .nil⟩
    (fun _ => .ok [.text "abcdEfghI123"]) [.text "abcdEfghI123"] 0
    rfl rfl rfl rfl rfl rfl rfl
  exact h.1

/-! ## Lemmas about sliding-window context reduction -/

/-- A fold by `max` stays below any common upper bound. -/
theorem foldr_max_le (l : List Nat) (s : Nat) (h : ∀ x ∈ l, x ≤ s) :
    l.foldr max 0 ≤ s := by
  induction l with
  | nil => exact Nat.zero_le s
  | cons a t ih =>
      simp only [List.foldr_cons]
      exact max_le (h a (by simp)) (ih fun x hx => h x (by simp [hx]))

/-- A fold by `max` dominates every member. -/
theorem le_foldr_max (l : List Nat) (s : Nat) (h : s ∈ l) : s ≤ l.foldr max 0 := by
  induction l with
  | nil => cases h
  | cons a t ih =>
      simp only [List.foldr_cons]
      rcases List.mem_cons.mp h with h | h
      · subst h; exact le_max_left _ _
      · exact le_trans (ih h) (le_max_right _ _)

/-- A fold by `max` equals a member that bounds the whole list. -/
theorem foldr_max_eq (l : List Nat) (s : Nat) (hmem : s ∈ l)
    (hle : ∀ x ∈ l, x ≤ s) : l.foldr max 0 = s :=
  le_antisymm (foldr_max_le l s hle) (le_foldr_max l s hmem)

/-- Truncatable results distribute over block-list concatenation. -/
theorem blockResults_append (b₁ b₂ : List ContentBlock) :
    blockResults (b₁ ++ b₂) = blockResults b₁ ++ blockResults b₂ := by
  induction b₁ with
  | nil => rfl
  | cons b rest ih =>
      cases b with
      | toolResult tr =>
          simp only [List.cons_append, blockResults]
          split <;> simp [ih]
      | text s => simpa [blockResults] using ih
      | toolUse tu => simpa [blockResults] using ih
      | reasoning t sg => simpa [blockResults] using ih

/-- Truncatable results distribute over conversation concatenation. -/
theorem truncatableResults_append (l₁ l₂ : List Message) :
    truncatableResults (l₁ ++ l₂) = truncatableResults l₁ ++ truncatableResults l₂ := by
  induction l₁ with
  | nil => rfl
  | cons m rest ih => simp [truncatableResults, ih]

/-- A block whose (not-yet-truncated) tool results all lie strictly below
the cut size is untouched by truncation. -/
theorem truncateBlock_small (m : Nat) (b : ContentBlock)
    (h : ∀ tr ∈ blockResults [b], resultSize tr < m) : truncateBlock m b = b := by
  cases b with
  | toolResult tr =>
      simp only [truncateBlock]
      by_cases htr : isTruncatedResult tr
      · rw [if_neg]; simp [htr]
      · have : resultSize tr < m := by
          apply h
          simp [blockResults, htr]
        rw [if_neg]
        simp [htr]
        omega
  | text s => rfl
  | toolUse tu => rfl
  | reasoning t sg => rfl

/-- A content list whose tool results all lie strictly below the cut size
is untouched by truncation. -/
theorem content_map_truncate_small (m : Nat) (content : List ContentBlock)
    (h : ∀ tr ∈ blockResults content, resultSize tr < m) :
    content.map (truncateBlock m) = content := by
  induction content with
  | nil => rfl
  | cons b rest ih =>
      have hb : truncateBlock m b = b := by
        apply truncateBlock_small
        intro tr htr
        apply h
        rw [show b :: rest = [b] ++ rest from rfl, blockResults_append]
        exact List.mem_append_left _ htr
      have hrest : rest.map (truncateBlock m) = rest := by
        apply ih
        intro tr htr
        apply h
        rw [show b :: rest = [b] ++ rest from rfl, blockResults_append]
        exact List.mem_append_right _ htr
      simp [hb, hrest]

/-- A conversation whose tool results all lie strictly below the cut size
is untouched by truncation. -/
theorem conv_map_truncate_small (m : Nat) (conv : List Message)
    (h : ∀ tr ∈ truncatableResults conv, resultSize tr < m) :
    conv.map (fun msg => (⟨msg.role, msg.content.map (truncateBlock m)⟩ : Message))
      = conv := by
  induction conv with
  | nil => rfl
  | cons msg rest ih =>
      have hmsg : msg.content.map (truncateBlock m) = msg.content := by
        apply content_map_truncate_small
        intro tr htr
        apply h
        simp only [truncatableResults]
        exact List.mem_append_left _ htr
      have hrest := ih fun tr htr => h tr (by
        simp only [truncatableResults]
        exact List.mem_append_right _ htr)
      simp [hmsg, hrest]

/-- C4: on a conversation holding a unique largest not-yet-truncated tool
result, the sliding-window manager with truncation enabled handles a
capacity overflow by replacing exactly that tool result's content with the
fixed "tool result too large" error text, converting its status to error,
and leaving everything else — the surrounding blocks, the message order,
and all other messages — unchanged in the conversation supplied to the
retried provider call. -/
theorem reduce_context_truncates_largest_tool_result :
    ∀ (w : Nat) (cause : String) (pre post : List Message) (r : Role)
      (bpre bpost : List ContentBlock) (tr : ToolResultData),
      isTruncatedResult tr = false →
      (∀ tr' ∈ truncatableResults pre ++ blockResults bpre ++ blockResults bpost
          ++ truncatableResults post, resultSize tr' < resultSize tr) →
      reduceContext (.slidingWindow w true)
          (pre ++ ⟨r, bpre ++ .toolResult tr :: bpost⟩ :: post) cause
        = .ok (pre ++ ⟨r, bpre ++ .toolResult (truncatedResult tr) :: bpost⟩ :: post) := by
  intro w cause pre post r bpre bpost tr htr hmax
  have hmid : blockResults (bpre ++ ContentBlock.toolResult tr :: bpost)
      = blockResults bpre ++ tr :: blockResults bpost := by
    rw [blockResults_append]
    simp [blockResults, htr]
  have htrs : truncatableResults (pre ++ ⟨r, bpre ++ .toolResult tr :: bpost⟩ :: post)
      = truncatableResults pre
        ++ (blockResults bpre ++ tr :: blockResults bpost)
        ++ truncatableResults post := by
    rw [show (⟨r, bpre ++ .toolResult tr :: bpost⟩ : Message) :: post
        = [⟨r, bpre ++ .toolResult tr :: bpost⟩] ++ post from rfl,
      truncatableResults_append, truncatableResults_append]
    simp [truncatableResults, hmid]
  have hbound : ∀ tr' ∈ truncatableResults
      (pre ++ ⟨r, bpre ++ .toolResult tr :: bpost⟩ :: post),
      resultSize tr' ≤ resultSize tr := by
    intro tr' h
    rw [htrs] at h
    simp only [List.mem_append, List.mem_cons] at h
    rcases h with (h | h | h) | h
    · exact le_of_lt (hmax tr' (by simp [h]))
    · exact le_of_lt (hmax tr' (by simp [h]))
    · rcases h with h | h
      · exact le_of_eq (by rw [h])
      · exact le_of_lt (hmax tr' (by simp [h]))
    · exact le_of_lt (hmax tr' (by simp [h]))
  have hmemtr : tr ∈ truncatableResults
      (pre ++ ⟨r, bpre ++ .toolResult tr :: bpost⟩ :: post) := by
    rw [htrs]
    simp
  have hm : maxResultSize (pre ++ ⟨r, bpre ++ .toolResult tr :: bpost⟩ :: post)
      = resultSize tr := by
    unfold maxResultSize
    apply foldr_max_eq
    · exact List.mem_map_of_mem resultSize hmemtr
    · intro x hx
      obtain ⟨tr', htr', hx⟩ := List.mem_map.mp hx
      exact hx ▸ hbound tr' htr'
  have hne : truncatableResults (pre ++ ⟨r, bpre ++ .toolResult tr :: bpost⟩ :: post)
      ≠ [] := fun hnil => by rw [hnil] at hmemtr; cases hmemtr
  simp only [reduceContext]
  rw [if_pos ⟨trivial, hne⟩]
  congr 1
  unfold truncateLargest
  rw [hm, List.map_append, List.map_cons]
  have hpre : pre.map
      (fun msg => (⟨msg.role, msg.content.map (truncateBlock (resultSize tr))⟩ : Message))
      = pre := by
    apply conv_map_truncate_small
    intro tr' h
    exact hmax tr' (by simp [h])
  have hpost : post.map
      (fun msg => (⟨msg.role, msg.content.map (truncateBlock (resultSize tr))⟩ : Message))
      = post := by
    apply conv_map_truncate_small
    intro tr' h
    exact hmax tr' (by simp [h])
  have hbpre : bpre.map (truncateBlock (resultSize tr)) = bpre := by
    apply content_map_truncate_small
    intro tr' h
    exact hmax tr' (by simp [h])
  have hbpost : bpost.map (truncateBlock (resultSize tr)) = bpost := by
    apply content_map_truncate_small
    intro tr' h
    exact hmax tr' (by simp [h])
  have hmidblock : truncateBlock (resultSize tr) (.toolResult tr)
      = .toolResult (truncatedResult tr) := by
    simp only [truncateBlock]
    rw [if_pos ⟨htr, trivial⟩]
  simp only [hpre, hpost]
  congr 1
  simp [hbpre, hbpost, hmidblock]

/-- Witness for C4 at a concrete conversation: the large tool result is
replaced by the fixed error text while a smaller earlier tool result, the
tool-use block and the plain messages stay untouched. -/
theorem reduce_context_truncates_largest_tool_result_witness :
    isTruncatedResult (⟨"123", .success, [.text "Some large input!"]⟩ : ToolResultData)
        = false
      ∧ reduceContext (.slidingWindow 40 true)
          ([⟨Role.user, [.text "Hello!"]⟩,
            ⟨Role.user, [.toolResult ⟨"99", .success, [.text "ok"]⟩]⟩]
            ++ ⟨Role.user,
                [.toolUse ⟨"123", "test", JsonVal.obj .nil⟩]
                  ++ .toolResult ⟨"123", .success, [.text "Some large input!"]⟩ :: []⟩
              :: []) "cause"
        = .ok ([⟨Role.user, [.text "Hello!"]⟩,
            ⟨Role.user, [.toolResult ⟨"99", .success, [.text "ok"]⟩]⟩]
            ++ ⟨Role.user,
                [.toolUse ⟨"123", "test", JsonVal.obj .nil⟩]
                  ++ .toolResult
                      (truncatedResult ⟨"123", .success, [.text "Some large input!"]⟩)
                    :: []⟩
              :: []) :=
  ⟨rfl,
    reduce_context_truncates_largest_tool_result 40 "cause"
      [⟨Role.user, [.text "Hello!"]⟩,
        ⟨Role.user, [.toolResult ⟨"99", .success, [.text "ok"]⟩]⟩]
      [] Role.user [.toolUse ⟨"123", "test", JsonVal.obj .nil⟩] []
      ⟨"123", .success, [.text "Some large input!"]⟩ rfl (by decide)⟩

/-! ## Lemmas about deep copies, mutation and the AgentState container -/

mutual

/-- Deep copy advances the allocation counter and labels every dict node
of the copy with a fresh address from the consumed range. -/
theorem deepcopy_bounds : ∀ (n : Nat) (v : PyVal),
    n ≤ (deepcopy n v).2
      ∧ ∀ a ∈ addrsOf (deepcopy n v).1, n ≤ a ∧ a < (deepcopy n v).2
  | n, .atom s => ⟨Nat.le_refl n, by intro a ha; simp [deepcopy, addrsOf] at ha⟩
  | n, .nonser t => ⟨Nat.le_refl n, by intro a ha; simp [deepcopy, addrsOf] at ha⟩
  | n, .dict a0 fs => by
      have h := deepcopyFields_bounds (n + 1) fs
      constructor
      · show n ≤ (deepcopyFields (n + 1) fs).2
        omega
      · intro a ha
        show n ≤ a ∧ a < (deepcopyFields (n + 1) fs).2
        have ha' : a = n ∨ a ∈ addrsOfFields (deepcopyFields (n + 1) fs).1 :=
          List.mem_cons.mp ha
        rcases ha' with h1 | h1
        · omega
        · have := h.2 a h1
          omega

/-- Deep copy of a field list advances the allocation counter and labels
every dict node of the copy with a fresh address from the consumed
range. -/
theorem deepcopyFields_bounds : ∀ (n : Nat) (fs : PyFields),
    n ≤ (deepcopyFields n fs).2
      ∧ ∀ a ∈ addrsOfFields (deepcopyFields n fs).1,
        n ≤ a ∧ a < (deepcopyFields n fs).2
  | n, .nil => ⟨Nat.le_refl n, by intro a ha; simp [deepcopyFields, addrsOfFields] at ha⟩
  | n, .cons k v rest => by
      have hv := deepcopy_bounds n v
      have hr := deepcopyFields_bounds (deepcopy n v).2 rest
      constructor
      · show n ≤ (deepcopyFields (deepcopy n v).2 rest).2
        omega
      · intro a ha
        show n ≤ a ∧ a < (deepcopyFields (deepcopy n v).2 rest).2
        have ha' : a ∈ addrsOf (deepcopy n v).1
            ∨ a ∈ addrsOfFields (deepcopyFields (deepcopy n v).2 rest).1 :=
          List.mem_append.mp ha
        rcases ha' with h1 | h1
        · have := hv.2 a h1
          omega
        · have := hr.2 a h1
          omega

end

mutual

/-- Deep copy preserves JSON serializability. -/
theorem deepcopy_serializable : ∀ (n : Nat) (v : PyVal),
    serializableVal (deepcopy n v).1 = serializableVal v
  | _, .atom _ => rfl
  | _, .nonser _ => rfl
  | n, .dict _ fs => deepcopyFields_serializable (n + 1) fs

/-- Deep copy of a field list preserves JSON serializability. -/
theorem deepcopyFields_serializable : ∀ (n : Nat) (fs : PyFields),
    serializableFields (deepcopyFields n fs).1 = serializableFields fs
  | _, .nil => rfl
  | n, .cons k v rest => by
      show (serializableVal (deepcopy n v).1
          && serializableFields (deepcopyFields (deepcopy n v).2 rest).1)
        = (serializableVal v && serializableFields rest)
      rw [deepcopy_serializable, deepcopyFields_serializable]

end

mutual

/-- Mutating a dict object whose address does not occur in a value leaves
the value untouched. -/
theorem mutateVal_noop (a : Nat) (k : String) (w : PyVal) :
    ∀ (v : PyVal), a ∉ addrsOf v → mutateVal a k w v = v
  | .atom _, _ => rfl
  | .nonser _, _ => rfl
  | .dict a' fs, h => by
      have h1 : ¬ a' = a := by
        intro hh
        exact h (by simp [addrsOf, hh])
      have h2 : a ∉ addrsOfFields fs := by
        intro hh
        exact h (by simp [addrsOf, hh])
      show (if a' = a then PyVal.dict a' (setField k w (mutateFields a k w fs))
          else PyVal.dict a' (mutateFields a k w fs)) = PyVal.dict a' fs
      rw [if_neg h1, mutateFields_noop a k w fs h2]

/-- Mutating a dict object whose address does not occur in a field list
leaves the field list untouched. -/
theorem mutateFields_noop (a : Nat) (k : String) (w : PyVal) :
    ∀ (fs : PyFields), a ∉ addrsOfFields fs → mutateFields a k w fs = fs
  | .nil, _ => rfl
  | .cons k' v rest, h => by
      have h1 : a ∉ addrsOf v := by
        intro hh
        exact h (by simp [addrsOfFields, hh])
      have h2 : a ∉ addrsOfFields rest := by
        intro hh
        exact h (by simp [addrsOfFields, hh])
      show PyFields.cons k' (mutateVal a k w v) (mutateFields a k w rest)
        = PyFields.cons k' v rest
      rw [mutateVal_noop a k w v h1, mutateFields_noop a k w rest h2]

end

/-- Addresses of an updated field list come from the new value or from the
old field list. -/
theorem addrsOfFields_setField (k : String) (v : PyVal) :
    ∀ (fs : PyFields) (a : Nat), a ∈ addrsOfFields (setField k v fs) →
      a ∈ addrsOf v ∨ a ∈ addrsOfFields fs
  | .nil, a, h => by
      refine Or.inl ?_
      simpa [setField, addrsOfFields] using h
  | .cons k' v' rest, a, h => by
      simp only [setField] at h
      by_cases hk : k' = k
      · rw [if_pos hk] at h
        rcases List.mem_append.mp h with h | h
        · exact Or.inl h
        · exact Or.inr (by simp [addrsOfFields, h])
      · rw [if_neg hk] at h
        rcases List.mem_append.mp h with h | h
        · exact Or.inr (by simp [addrsOfFields, h])
        · rcases addrsOfFields_setField k v rest a h with h | h
          · exact Or.inl h
          · exact Or.inr (by simp [addrsOfFields, h])

/-- Updating a field list with a serializable value preserves
serializability. -/
theorem serializableFields_setField (k : String) (v : PyVal)
    (hv : serializableVal v = true) :
    ∀ (fs : PyFields), serializableFields fs = true →
      serializableFields (setField k v fs) = true
  | .nil, _ => by simp [setField, serializableFields, hv]
  | .cons k' v' rest, h => by
      have h' : serializableVal v' = true ∧ serializableFields rest = true := by
        simpa [serializableFields, Bool.and_eq_true] using h
      simp only [setField]
      by_cases hk : k' = k
      · rw [if_pos hk]
        simp [serializableFields, hv, h'.2]
      · rw [if_neg hk]
        simp [serializableFields, h'.1,
          serializableFields_setField k v hv rest h'.2]

/-- C3: AgentState isolates stored state from external mutation in both
directions, nested structures included.  After a successful write of a
caller value, mutating any dict object of that value (at any key, with any
new value) leaves the stored state untouched; mutating any dict object of
the snapshot returned by a read likewise leaves the stored state
untouched; and in either case the stored state still JSON-serializes
afterwards.  The hypotheses say that the state container is well-formed
and serializable and that the caller's value consists of already-allocated
objects distinct from the stored ones, as the allocator guarantees. -/
theorem agent_state_copy_isolation :
    ∀ (st st' : AgentState) (k : String) (v : PyVal) (a₁ a₂ : Nat) (k' : String)
      (w : PyVal),
      st.WF →
      serializableFields st.fields = true →
      (∀ b ∈ addrsOf v, b < st.next) →
      (∀ b ∈ addrsOf v, b ∉ addrsOfFields st.fields) →
      st.set k v = .ok st' →
      a₁ ∈ addrsOf v →
      a₂ ∈ addrsOf (st.get).1 →
      (mutateFields a₁ k' w st'.fields = st'.fields
          ∧ serializableFields (mutateFields a₁ k' w st'.fields) = true)
        ∧ (mutateFields a₂ k' w st.fields = st.fields
          ∧ serializableFields (mutateFields a₂ k' w st.fields) = true) := by
  intro st st' k v a₁ a₂ k' w hwf hser hlt hdisj hset ha₁ ha₂
  constructor
  · by_cases hsv : serializableVal v = true
    · have hst' : st' = ⟨setField k (deepcopy st.next v).1 st.fields,
          (deepcopy st.next v).2⟩ := by
        unfold AgentState.set at hset
        rw [if_pos hsv] at hset
        injection hset with h
        exact h.symm
      subst hst'
      have hnotin : a₁ ∉ addrsOfFields (setField k (deepcopy st.next v).1 st.fields) := by
        intro hmem
        rcases addrsOfFields_setField k (deepcopy st.next v).1 st.fields a₁ hmem with
          h | h
        · have := (deepcopy_bounds st.next v).2 a₁ h
          have := hlt a₁ ha₁
          omega
        · exact hdisj a₁ ha₁ h
      have hnoop := mutateFields_noop a₁ k' w _ hnotin
      refine ⟨hnoop, ?_⟩
      rw [hnoop]
      exact serializableFields_setField k (deepcopy st.next v).1
        (by rw [deepcopy_serializable]; exact hsv) st.fields hser
    · exfalso
      unfold AgentState.set at hset
      rw [if_neg hsv] at hset
      cases hset
  · have hget : (st.get).1
        = .dict st.next (deepcopyFields (st.next + 1) st.fields).1 := rfl
    rw [hget] at ha₂
    have ha₂' : a₂ = st.next
        ∨ a₂ ∈ addrsOfFields (deepcopyFields (st.next + 1) st.fields).1 :=
      List.mem_cons.mp ha₂
    have hge : st.next ≤ a₂ := by
      rcases ha₂' with h | h
      · omega
      · have := (deepcopyFields_bounds (st.next + 1) st.fields).2 a₂ h
        omega
    have hnotin : a₂ ∉ addrsOfFields st.fields := by
      intro hmem
      have := hwf a₂ hmem
      omega
    have hnoop := mutateFields_noop a₂ k' w _ hnotin
    refine ⟨hnoop, ?_⟩
    rw [hnoop]
    exact hser

/-- Witness for C3 at a concrete state: writing a nested dict and then
mutating the caller's dict, and reading a snapshot and mutating it, both
leave the stored state byte-for-byte intact and serializable. -/
theorem agent_state_copy_isolation_witness :
    (mutateFields 3 "z" (.atom "q")
          (⟨PyFields.cons "x" (.atom "y")
              (.cons "hello" (.dict 10 (.cons "hello" (.atom "world") .nil)) .nil),
            11⟩ : AgentState).fields
        = (⟨PyFields.cons "x" (.atom "y")
              (.cons "hello" (.dict 10 (.cons "hello" (.atom "world") .nil)) .nil),
            11⟩ : AgentState).fields
      ∧ serializableFields (mutateFields 3 "z" (.atom "q")
          (⟨PyFields.cons "x" (.atom "y")
              (.cons "hello" (.dict 10 (.cons "hello" (.atom "world") .nil)) .nil),
            11⟩ : AgentState).fields) = true)
    ∧ (mutateFields 10 "z" (.atom "q")
          (⟨PyFields.cons "x" (.atom "y") .nil, 10⟩ : AgentState).fields
        = (⟨PyFields.cons "x" (.atom "y") .nil, 10⟩ : AgentState).fields
      ∧ serializableFields (mutateFields 10 "z" (.atom "q")
          (⟨PyFields.cons "x" (.atom "y") .nil, 10⟩ : AgentState).fields) = true) :=
  agent_state_copy_isolation
    ⟨PyFields.cons "x" (.atom "y") .nil, 10⟩
    ⟨PyFields.cons "x" (.atom "y")
        (.cons "hello" (.dict 10 (.cons "hello" (.atom "world") .nil)) .nil),
      11⟩
    "hello" (.dict 3 (.cons "hello" (.atom "world") .nil)) 3 10 "z" (.atom "q")
    (by intro a ha; exact absurd ha (List.not_mem_nil a)) (by decide) (by decide)
    (by intro b hb hmem; exact absurd hmem (List.not_mem_nil b)) rfl (by decide)
    (by decide)

end Strands
